import Mathlib

/-
Verification of the FITS I/O layer of fits2hdf (src/fits2hdf/io/fitsio.py).

The Python code is shallowly embedded: Python strings are lists of
characters, Python dicts are ordered association lists with
first-position-preserving overwrite, header cards are (name, value,
comment) records, and the fallible pieces of the import path return
Except values.  The external astropy codec is modelled only where the
translated functions observe it (fresh-HDU header cards, the data
accessor that can raise, the table reader); those model points are
marked in comments.
-/

namespace Fits2Hdf

/-- Python strings are modelled as lists of characters. -/
abbrev PyStr := List Char

/-- Values carried by header cards and dict entries (strings, ints,
booleans, or the Python None object); the translated code moves these
around without inspecting them. -/
inductive PyVal where
  | str (s : PyStr)
  | int (n : Int)
  | bool (b : Bool)
  | none_
deriving DecidableEq

/-- One header card: name, value and inline comment, as produced by the
external FITS codec. -/
structure Card where
  id : PyStr
  val : PyVal
  comment : PyVal
deriving DecidableEq

/-- A Python dict with insertion order observable: an association list
where overwriting a key keeps its original position. -/
abbrev PyDict := List (PyStr × PyVal)

/-- Dict assignment d[k] = v: overwrite in place when the key exists,
append otherwise.  Dicts built from the empty dict never hold duplicate
keys, which matches Python dict semantics. -/
def dictInsert : PyDict → PyStr → PyVal → PyDict
  | [], k, v => [(k, v)]
  | p :: d, k, v => if p.1 = k then (k, v) :: d else p :: dictInsert d k v

/-- Dict lookup d.get(k). -/
def dictGet? : PyDict → PyStr → Option PyVal
  | [], _ => none
  | p :: d, k => if p.1 = k then some p.2 else dictGet? d k

/-- Python str.strip: drop whitespace from both ends. -/
def pyStrip (s : PyStr) : PyStr :=
  ((s.dropWhile Char.isWhitespace).reverse.dropWhile Char.isWhitespace).reverse

/-- fitsio.py line 22: keywords mandatory to FITS that are computed by
the writer and never round-tripped. -/
def restricted_header_keywords : List PyStr :=
  ["XTENSION".data, "BITPIX".data, "SIMPLE".data, "PCOUNT".data, "GCOUNT".data,
   "GROUPS".data, "EXTEND".data, "TFIELDS".data, "EXTNAME".data]

/-- fitsio.py line 24: per-column keyword prefixes, matched against the
first five characters of a card name. -/
def restricted_table_keywords : List PyStr :=
  ["TDISP".data, "TUNIT".data, "TTYPE".data, "TFORM".data, "TBCOL".data,
   "TNULL".data, "TSCAL".data, "TZERO".data, "NAXIS".data]

/-- The numpy scalar types the translated code distinguishes.  The
object_ constructor stands for any numpy scalar type that has no entry
in the format-code table and is not a fixed-width bytes type. -/
inductive NpType where
  | uint8 | uint16 | uint32 | uint64
  | int8 | int16 | int32 | int64
  | float16 | float32 | float64
  | complex64 | complex128
  | bool_
  | string_
  | object_
deriving DecidableEq

/-- A numpy dtype: its scalar type and its byte width. -/
structure NpDtype where
  type : NpType
  itemsize : Nat
deriving DecidableEq

/-- fitsio.py lines 74-89: the fixed dtype-to-format-code table,
accessed with dict.get (so a missing key yields None). -/
def dtype_dict : NpType → Option PyStr
  | .uint8 => some "B".data
  | .uint16 => some "J".data
  | .uint32 => some "K".data
  | .uint64 => some "K".data
  | .int8 => some "I".data
  | .int16 => some "I".data
  | .int32 => some "J".data
  | .int64 => some "K".data
  | .float16 => some "E".data
  | .float32 => some "E".data
  | .float64 => some "D".data
  | .complex64 => some "C".data
  | .complex128 => some "M".data
  | .bool_ => some "L".data
  | .string_ => none
  | .object_ => none

/-- fitsio.py lines 27-95: return a FITS format code for a numpy dtype
and array shape.  The Python function returns None (not a code and not
an exception) when the dtype is absent from the table and the last-axis
length is 1, and the string rendering of None otherwise, so the result
type is Option PyStr. -/
def fits_format_code_lookup (numpy_dtype : NpDtype) (numpy_shape : List Nat) :
    Option PyStr :=
  let fmt_len := if numpy_shape.length > 1 then numpy_shape.getLastD 1 else 1
  if numpy_dtype.type = NpType.string_ then
    if numpy_dtype.itemsize = 1 then some "A".data
    else some ((toString numpy_dtype.itemsize).data ++ "A".data)
  else
    let fmt_code := dtype_dict numpy_dtype.type
    if fmt_len = 1 then fmt_code
    else some ((toString fmt_len).data ++ fmt_code.getD "None".data)

/-- The fixed FITS format-code alphabet from the fitsio.py docstring. -/
def fits_code_alphabet : List PyStr :=
  ["L".data, "X".data, "B".data, "I".data, "J".data, "K".data, "A".data,
   "E".data, "D".data, "C".data, "M".data, "P".data, "Q".data]

/-- Model of astropy hduobj.header[key] = (value, comment): replace the
value and comment of an existing card in place, append a new card
otherwise. -/
def headerSet : List Card → PyStr → PyVal → PyVal → List Card
  | [], k, v, c => [⟨k, v, c⟩]
  | card :: hdr, k, v, c =>
    if card.id = k then ⟨k, v, c⟩ :: hdr else card :: headerSet hdr k v c

/-- Model of astropy header.add_history: append a HISTORY card. -/
def add_history (hdr : List Card) (v : PyVal) : List Card :=
  hdr ++ [⟨"HISTORY".data, v, PyVal.str []⟩]

/-- Model of astropy header.add_comment: append a COMMENT card. -/
def add_comment (hdr : List Card) (v : PyVal) : List Card :=
  hdr ++ [⟨"COMMENT".data, v, PyVal.str []⟩]

/-- One step of the loop in fitsio.py lines 113-128: copy one header
entry unless its key is a comment companion, a table-derived key, or a
basic restricted key.  The comment lookup on the full entries dict comes
first, defaulting to the empty string, as in the source try/except. -/
def writeHeadersStep (idiHeader : PyDict) (h : List Card) (kv : PyStr × PyVal) :
    List Card :=
  let comment := match dictGet? idiHeader (kv.1 ++ "_COMMENT".data) with
    | some c => c
    | none => PyVal.str []
  let is_comment := "_COMMENT".data.isSuffixOf kv.1
  let is_table := kv.1.take 5 ∈ restricted_table_keywords ∨
    kv.1.take 4 = "TDIM".data ∨ kv.1 = "TFIELDS".data
  let is_basic := kv.1 ∈ restricted_header_keywords
  if is_comment = true ∨ is_table ∨ is_basic then h
  else headerSet h kv.1 kv.2 comment

/-- fitsio.py lines 97-137: copy headers from an IDI object onto an HDU
header, then append the history lines and then the comment lines.  The
closing verify call only normalises card formatting in the external
codec and is the identity at this level. -/
def write_headers (hduhdr : List Card) (idiHeader : PyDict)
    (idiHistory idiComment : List PyVal) : List Card :=
  let h1 := idiHeader.foldl (writeHeadersStep idiHeader) hduhdr
  let h2 := idiHistory.foldl add_history h1
  idiComment.foldl add_comment h2

/-- The loop body of fitsio.py lines 163-181, written as structural
recursion over the card list with the three accumulators of the source
(header dict, comment list, history list). -/
def parseGo : List Card → PyDict → List PyVal → List PyVal →
    PyDict × List PyVal × List PyVal
  | [], header, comment, history => (header, comment, history)
  | card :: rest, header, comment, history =>
    let card_id := pyStrip card.id
    let comment_id := card_id ++ "_COMMENT".data
    if card_id = [] ∨ card_id = [' '] then parseGo rest header comment history
    else if card_id ∈ restricted_header_keywords then
      parseGo rest header comment history
    else if card_id.take 5 ∈ restricted_table_keywords then
      parseGo rest header comment history
    else if card_id = "HISTORY".data then
      parseGo rest header comment (history ++ [card.val])
    else if card_id = "COMMENT".data then
      parseGo rest header (comment ++ [card.val]) history
    else
      parseGo rest (dictInsert (dictInsert header card_id card.val)
        comment_id card.comment) comment history

/-- fitsio.py lines 139-183: parse a FITS header into a dict of user
entries (with KEY_COMMENT companions), a comment list and a history
list, returned in that order. -/
def parse_fits_header (cards : List Card) : PyDict × List PyVal × List PyVal :=
  parseGo cards [] [] []

/-- Exceptions the modelled external codec can raise while a data
payload is being accessed. -/
inductive PyExc where
  | typeError
  | otherError (msg : PyStr)
deriving DecidableEq

/-- A numpy array payload: dtype, shape and flattened contents. -/
structure NpArray where
  dtype : NpDtype
  shape : List Nat
  elems : List PyVal
deriving DecidableEq

instance exceptDecEq {ε α : Type} [DecidableEq ε] [DecidableEq α] :
    DecidableEq (Except ε α) := fun x y =>
  match x, y with
  | .ok a, .ok b =>
    if h : a = b then .isTrue (by rw [h])
    else .isFalse (by intro hh; cases hh; exact h rfl)
  | .error a, .error b =>
    if h : a = b then .isTrue (by rw [h])
    else .isFalse (by intro hh; cases hh; exact h rfl)
  | .ok _, .error _ => .isFalse (by intro hh; cases hh)
  | .error _, .ok _ => .isFalse (by intro hh; cases hh)

/-- The astropy HDU classes the import orchestrator dispatches on.
groupsHDU models astropy GroupsHDU, which isinstance-matches the
PrimaryHDU branch; compImageHDU matches only its own branch. -/
inductive FitsHDUKind where
  | imageHDU | primaryHDU | groupsHDU | compImageHDU | binTableHDU
deriving DecidableEq

/-- An astropy binary-table column as built by pf.Column, together with
the underlying numpy metadata the external codec keeps with it. -/
structure FitsColumn where
  name : PyStr
  format : Option PyStr
  unit : PyStr
  array : List PyVal
  dtype : NpDtype
  shape : List Nat
deriving DecidableEq

/-- One unit of an in-memory astropy HDUList: name, class, header cards,
payload size, the is_image introspection flag, the result of the
data accessor (which raises TypeError when the payload is the None
object), and the tabular payload for binary-table units. -/
structure FitsHDU where
  name : PyStr
  kind : FitsHDUKind
  hdr : List Card
  size : Nat
  is_image : Bool
  data : Except PyExc NpArray
  table : List FitsColumn
deriving DecidableEq

/-- A column of an IDI table: name, dtype, shape, unit token and data. -/
structure IdiColumn where
  name : PyStr
  dtype : NpDtype
  shape : List Nat
  unit : PyStr
  data : List PyVal
deriving DecidableEq

/-- Tabular payload of an IDI table unit: either named columns, or the
raw array a random-groups unit passes through. -/
inductive TableData where
  | cols (cs : List IdiColumn)
  | raw (arr : NpArray)
deriving DecidableEq

/-- The Container Model unit: Primary, Image or Table, each carrying the
header dict, the history list and the comment list, in the field order
of the add_primary_hdu / add_image_hdu / add_table_hdu keyword
arguments. -/
inductive IdiHdu where
  | primary (header : PyDict) (history comment : List PyVal)
  | image (data : NpArray) (header : PyDict) (history comment : List PyVal)
  | table (data : TableData) (header : PyDict) (history comment : List PyVal)
deriving DecidableEq

/-- The history list stored in a Container Model unit. -/
def IdiHdu.history : IdiHdu → List PyVal
  | .primary _ h _ => h
  | .image _ _ h _ => h
  | .table _ _ h _ => h

/-- The comment list stored in a Container Model unit. -/
def IdiHdu.comment : IdiHdu → List PyVal
  | .primary _ _ c => c
  | .image _ _ _ c => c
  | .table _ _ _ c => c

/-- The Container Model document: an ordered mapping from unit name to
unit. -/
abbrev IdiHdulist := List (PyStr × IdiHdu)

/-- Modelled from the spec: unit_conversion.units_to_fits (the
unit_conversion module is not under src/).  Recognized unit tokens map
through a fixed bidirectional table and unrecognized strings pass
through unchanged, so at the granularity of the stored token the
translation preserves the text and is modelled as the identity. -/
def units_to_fits (u : PyStr) : PyStr := u

/-- Modelled from the spec: the inverse direction of the unit
translation, likewise text-preserving (see units_to_fits). -/
def units_from_fits (u : PyStr) : PyStr := u

/-- Model of the external table reader used at fitsio.py line 243
(Table.read on the unit name followed by the IdiTableHdu constructor):
it yields the tabular payload of the unit as IDI columns. -/
def tableRead (hdu : FitsHDU) : List IdiColumn :=
  hdu.table.map (fun c => ⟨c.name, c.dtype, c.shape, units_from_fits c.unit, c.array⟩)

/-- The per-unit body of the read_fits loop, fitsio.py lines 212-246.
Source line 212 is
  header, history, comment = parse_fits_header(hdul_fits)
while parse_fits_header returns (header, comment, history), so the local
variable history receives the parsed comment list and the local variable
comment receives the parsed history list; the bindings below reproduce
that unpacking order.  The try/except around the image branch catches
TypeError only. -/
def read_fits_hdu (hdu : FitsHDU) : Except PyExc IdiHdu :=
  let parsed := parse_fits_header hdu.hdr
  let header := parsed.1
  let history := parsed.2.1
  let comment := parsed.2.2
  match hdu.kind with
  | .imageHDU | .primaryHDU | .groupsHDU =>
    let attempt : Except PyExc IdiHdu :=
      if hdu.size = 0 then .ok (.primary header history comment)
      else if hdu.is_image then
        match hdu.data with
        | .ok d => .ok (.image d header history comment)
        | .error e => .error e
      else
        match hdu.data with
        | .ok d => .ok (.table (.raw d) header history comment)
        | .error e => .error e
    match attempt with
    | .error .typeError => .ok (.primary header history comment)
    | r => r
  | .compImageHDU =>
    match hdu.data with
    | .ok d => .ok (.image d header history comment)
    | .error e => .error e
  | .binTableHDU => .ok (.table (.cols (tableRead hdu)) header history comment)

/-- The blank-name test of fitsio.py line 208: name in ('', None, ' '). -/
def blankName (s : PyStr) : Bool := decide (s = [] ∨ s = [' '])

/-- The read_fits loop, fitsio.py lines 206-246: rename blank-named
units with the running counter ii, convert each unit, and append it to
the ordered Container Model in source order.  A conversion error other
than the caught TypeError aborts the read. -/
def read_fits_go : List FitsHDU → Nat → IdiHdulist → Except PyExc IdiHdulist
  | [], _, acc => .ok acc
  | hdu :: rest, ii, acc =>
    let p := if blankName hdu.name then
        (("HDU".data ++ (toString ii).data), ii + 1)
      else (hdu.name, ii)
    match read_fits_hdu { hdu with name := p.1 } with
    | .error e => .error e
    | .ok u => read_fits_go rest p.2 (acc ++ [(p.1, u)])

/-- fitsio.py lines 186-248: read an opened FITS document into a
Container Model. -/
def read_fits (ff : List FitsHDU) : Except PyExc IdiHdulist :=
  read_fits_go ff 0 []

/-- The datetime value taken by datetime.now() in create_fits; the
call is modelled by passing the value explicitly. -/
structure PyDateTime where
  year : Nat
  month : Nat
  day : Nat
  hour : Nat
  minute : Nat
deriving DecidableEq

/-- Zero-padded two-digit decimal field of strftime. -/
def pad2 (n : Nat) : PyStr := if n < 10 then '0' :: (toString n).data else (toString n).data

/-- Zero-padded four-digit decimal field of strftime. -/
def pad4 (n : Nat) : PyStr :=
  if n < 10 then '0' :: '0' :: '0' :: (toString n).data
  else if n < 100 then '0' :: '0' :: (toString n).data
  else if n < 1000 then '0' :: (toString n).data
  else (toString n).data

/-- fitsio.py line 313: now.strftime with the format string
Y-M-dTH:M (percent directives).  The M directive is the zero-padded
MINUTE field of strftime (the month directive would be lowercase m), so
the second field of the result repeats the minutes. -/
def strftimeYMdHM (t : PyDateTime) : PyStr :=
  pad4 t.year ++ "-".data ++ pad2 t.minute ++ "-".data ++ pad2 t.day ++
    "T".data ++ pad2 t.hour ++ ":".data ++ pad2 t.minute

/-- Model of the header cards of a freshly constructed astropy
PrimaryHDU (external codec): the mandatory structural cards. -/
def pfPrimaryInitCards : List Card :=
  [⟨"SIMPLE".data, .bool true, .str "conforms to FITS standard".data⟩,
   ⟨"BITPIX".data, .int 8, .str "array data type".data⟩,
   ⟨"NAXIS".data, .int 0, .str "number of array dimensions".data⟩,
   ⟨"EXTEND".data, .bool true, .str []⟩]

/-- Model of the header cards of a freshly constructed astropy
ImageHDU (external codec). -/
def pfImageInitCards : List Card :=
  [⟨"XTENSION".data, .str "IMAGE".data, .str "Image extension".data⟩,
   ⟨"BITPIX".data, .int 8, .str "array data type".data⟩,
   ⟨"NAXIS".data, .int 0, .str "number of array dimensions".data⟩,
   ⟨"PCOUNT".data, .int 0, .str "number of parameters".data⟩,
   ⟨"GCOUNT".data, .int 1, .str "number of groups".data⟩]

/-- Model of the per-column cards astropy BinTableHDU.from_columns
derives from a column-definition list (external codec). -/
def pfTableColCards (cols : List FitsColumn) : List Card :=
  (cols.enum.map (fun ic =>
    [(⟨"TTYPE".data ++ (toString (ic.1 + 1)).data, .str ic.2.name, .str []⟩ : Card),
     ⟨"TFORM".data ++ (toString (ic.1 + 1)).data,
       .str (ic.2.format.getD "None".data), .str []⟩,
     ⟨"TUNIT".data ++ (toString (ic.1 + 1)).data, .str ic.2.unit, .str []⟩])).flatten

/-- Model of the header cards of an astropy BinTableHDU built by
from_columns (external codec): structural table cards followed by the
derived per-column cards. -/
def pfBinTableInitCards (cols : List FitsColumn) (nrows : Nat) : List Card :=
  [⟨"XTENSION".data, .str "BINTABLE".data, .str "binary table extension".data⟩,
   ⟨"BITPIX".data, .int 8, .str "array data type".data⟩,
   ⟨"NAXIS".data, .int 2, .str "number of array dimensions".data⟩,
   ⟨"NAXIS2".data, .int nrows, .str "number of rows".data⟩,
   ⟨"PCOUNT".data, .int 0, .str "number of group parameters".data⟩,
   ⟨"GCOUNT".data, .int 1, .str "number of groups".data⟩,
   ⟨"TFIELDS".data, .int cols.length, .str "number of table fields".data⟩]
  ++ pfTableColCards cols

/-- The columns available to the export loop for a table unit.  The
column decomposition of a raw random-groups payload is performed by the
external codec and is not modelled, so raw payloads contribute no
modelled columns. -/
def TableData.colsOf : TableData → List IdiColumn
  | .cols cs => cs
  | .raw _ => []

/-- Number of elements of a numpy array, as reported by size. -/
def npSize (a : NpArray) : Nat := a.shape.foldl (· * ·) 1

/-- The per-unit body of the create_fits loop, fitsio.py lines 269-308:
primary units and image units named PRIMARY are inserted at position 0,
other image units and table units are appended; each new HDU starts from
the fresh-HDU cards of its astropy class and receives the IDI header
via write_headers. -/
def createFitsStep (acc : List FitsHDU) (item : PyStr × IdiHdu) : List FitsHDU :=
  match item.2 with
  | .primary header history comment =>
    ({ name := "PRIMARY".data, kind := .primaryHDU,
       hdr := write_headers pfPrimaryInitCards header history comment,
       size := 0, is_image := true, data := .error .typeError,
       table := [] } : FitsHDU) :: acc
  | .image d header history comment =>
    if item.1 = "PRIMARY".data then
      ({ name := "PRIMARY".data, kind := .primaryHDU,
         hdr := write_headers pfPrimaryInitCards header history comment,
         size := npSize d, is_image := true, data := .ok d,
         table := [] } : FitsHDU) :: acc
    else
      let new_hdu : FitsHDU :=
        { name := item.1, kind := .imageHDU,
          hdr := write_headers pfImageInitCards header history comment,
          size := npSize d, is_image := true, data := .ok d, table := [] }
      acc ++ [new_hdu]
  | .table tdata header history comment =>
    let cs := tdata.colsOf
    let fits_cols := cs.map (fun col =>
      ({ name := col.name, format := fits_format_code_lookup col.dtype col.shape,
         unit := units_to_fits col.unit, array := col.data,
         dtype := col.dtype, shape := col.shape } : FitsColumn))
    let nrows := (cs.head?.map (fun c => c.data.length)).getD 0
    let new_hdu : FitsHDU :=
      { name := item.1, kind := .binTableHDU,
        hdr := write_headers (pfBinTableInitCards fits_cols nrows) header history comment,
        size := nrows, is_image := false, data := .error .typeError,
        table := fits_cols }
    acc ++ [new_hdu]

/-- fitsio.py lines 250-315: export a Container Model to an in-memory
FITS document, then append the provenance HISTORY line with the
strftime timestamp to the first unit.  Python raises IndexError when the
resulting list is empty; that unreachable-for-nonempty-input case is
mapped to the empty list. -/
def create_fits (hdul : IdiHdulist) (now : PyDateTime) : List FitsHDU :=
  let hdulist := hdul.foldl createFitsStep []
  let now_str := strftimeYMdHM now
  match hdulist with
  | [] => []
  | h0 :: rest =>
    let line := PyVal.str ("File written by fits2hdf ".data ++ now_str)
    { h0 with hdr := add_history h0.hdr line } :: rest

/-- C3: the type-code encoder maps every supported numeric and boolean
element type through the fixed table (uint8 to B, int8 and int16 to I,
uint16 and int32 to J, uint32 and uint64 and int64 to K, float16 and
float32 to E, float64 to D, complex64 to C, complex128 to M, bool to L);
when the trailing shape dimension n is greater than 1 the code gets the
prefix n, while scalar shapes (length at most 1, or last axis 1) give
the bare code; in particular float64 with shape (N,) encodes as D and
with shape (N,5) as 5D. -/
theorem numeric_format_code_table :
    (dtype_dict .uint8 = some "B".data ∧ dtype_dict .int8 = some "I".data ∧
     dtype_dict .int16 = some "I".data ∧ dtype_dict .uint16 = some "J".data ∧
     dtype_dict .int32 = some "J".data ∧ dtype_dict .uint32 = some "K".data ∧
     dtype_dict .uint64 = some "K".data ∧ dtype_dict .int64 = some "K".data ∧
     dtype_dict .float16 = some "E".data ∧ dtype_dict .float32 = some "E".data ∧
     dtype_dict .float64 = some "D".data ∧ dtype_dict .complex64 = some "C".data ∧
     dtype_dict .complex128 = some "M".data ∧ dtype_dict .bool_ = some "L".data) ∧
    (∀ (t : NpType) (c : PyStr) (isz : Nat) (shape : List Nat),
      dtype_dict t = some c →
        ((shape.length ≤ 1 ∨ shape.getLastD 1 = 1) →
          fits_format_code_lookup ⟨t, isz⟩ shape = some c) ∧
        (shape.length > 1 → 1 < shape.getLastD 1 →
          fits_format_code_lookup ⟨t, isz⟩ shape =
            some ((toString (shape.getLastD 1)).data ++ c))) ∧
    (∀ (n isz : Nat),
      fits_format_code_lookup ⟨.float64, isz⟩ [n] = some "D".data ∧
      fits_format_code_lookup ⟨.float64, isz⟩ [n, 5] = some "5D".data) := by
  refine ⟨by decide, ?_, ?_⟩
  · intro t c isz shape h
    have ht : t ≠ .string_ := by rintro rfl; simp [dtype_dict] at h
    constructor
    · intro hs
      by_cases hl : shape.length > 1
      · have h1 : shape.getLastD 1 = 1 := by
          rcases hs with hs | hs
          · omega
          · exact hs
        rw [List.getLastD_eq_getLast?] at h1
        simp [fits_format_code_lookup, ht, hl, h1, h]
      · simp [fits_format_code_lookup, ht, hl, h]
    · intro hl hn
      have hne : ¬ shape.getLastD 1 = 1 := by omega
      rw [List.getLastD_eq_getLast?] at hne
      simp [fits_format_code_lookup, ht, hl, hne, h]
  · intro n isz
    constructor
    · simp [fits_format_code_lookup, dtype_dict]
    · have hlast : ([n, 5] : List Nat).getLastD 1 = 5 := by
        simp [List.getLastD, List.getLast]
      simp [fits_format_code_lookup, dtype_dict, hlast]
      rfl

/-- Witness for numeric_format_code_table at a concrete dtype and
shape. -/
theorem numeric_format_code_table_witness :
    fits_format_code_lookup ⟨NpType.int16, 2⟩ [4, 3] = some "3I".data :=
  (numeric_format_code_table.2.1 NpType.int16 "I".data 2 [4, 3]
    (by decide)).2 (by decide) (by decide)

/-- C4 (failing behaviour, evaluated): for element types with no entry
in the fixed table the encoder does not raise anything: with a scalar
shape it returns the Python None object, and with a trailing dimension
of 5 it returns the string 5None, which is not a code built over the
fixed format-code alphabet. -/
theorem unsupported_dtype_returns_none :
    fits_format_code_lookup ⟨NpType.object_, 8⟩ [3] = none ∧
    fits_format_code_lookup ⟨NpType.object_, 8⟩ [3, 5] = some "5None".data ∧
    "5None".data ∉ fits_code_alphabet ∧
    (∀ c ∈ fits_code_alphabet, ¬ (c.isSuffixOf "5None".data)) := by decide

/-- C10: for a fixed-width text dtype the encoder result depends only on
the byte width (A for width 1, nA for width n greater than 1) and never
carries the trailing-axis repeat prefix: the result is the same for
every array shape. -/
theorem string_dtype_code (n : Nat) (shape shape2 : List Nat) :
    fits_format_code_lookup ⟨NpType.string_, n⟩ shape =
      fits_format_code_lookup ⟨NpType.string_, n⟩ shape2 ∧
    fits_format_code_lookup ⟨NpType.string_, 1⟩ shape = some "A".data ∧
    (1 < n → fits_format_code_lookup ⟨NpType.string_, n⟩ shape =
      some ((toString n).data ++ "A".data)) := by
  refine ⟨?_, ?_, ?_⟩
  · by_cases h : n = 1 <;> simp [fits_format_code_lookup, h]
  · simp [fits_format_code_lookup]
  · intro h
    have hne : n ≠ 1 := by omega
    simp [fits_format_code_lookup, hne]

/-- Witness for string_dtype_code: a width-4 text column with trailing
shape dimension 5 still encodes as 4A. -/
theorem string_dtype_code_witness :
    fits_format_code_lookup ⟨NpType.string_, 4⟩ [3, 5] =
      fits_format_code_lookup ⟨NpType.string_, 4⟩ [7] ∧
    fits_format_code_lookup ⟨NpType.string_, 1⟩ [3, 5] = some "A".data ∧
    fits_format_code_lookup ⟨NpType.string_, 4⟩ [3, 5] = some "4A".data :=
  ⟨(string_dtype_code 4 [3, 5] [7]).1, (string_dtype_code 4 [3, 5] [7]).2.1,
   (string_dtype_code 4 [3, 5] [7]).2.2 (by decide)⟩

/-- An imported unit carrying one HISTORY card with value h and one
COMMENT card with value c. -/
def c2Hdu : FitsHDU :=
  { name := "SCI".data, kind := .imageHDU,
    hdr := [⟨"HISTORY".data, .str "h".data, .str []⟩,
            ⟨"COMMENT".data, .str "c".data, .str []⟩],
    size := 0, is_image := true, data := .error .typeError, table := [] }

/-- C2 (failing behaviour, evaluated): importing a unit whose header
holds the HISTORY card h and the COMMENT card c produces a Container
Model unit whose history list is [c] and whose comment list is [h]: the
HISTORY value lands in the comment sequence and the COMMENT value lands
in the history sequence, because read_fits unpacks the
(header, comment, history) result of parse_fits_header as
(header, history, comment). -/
theorem history_comment_swapped_on_import :
    read_fits [c2Hdu] =
      .ok [("SCI".data, .primary [] [PyVal.str "c".data] [PyVal.str "h".data])] ∧
    (IdiHdu.primary [] [PyVal.str "c".data] [PyVal.str "h".data]).history
      = [PyVal.str "c".data] ∧
    (IdiHdu.primary [] [PyVal.str "c".data] [PyVal.str "h".data]).comment
      = [PyVal.str "h".data] := by
  refine ⟨by rfl, rfl, rfl⟩

/-- A Container Model with one primary unit whose history is [h] and
whose comment is [c]. -/
def c1Container : IdiHdulist :=
  [("PRIMARY".data, .primary [] [PyVal.str "h".data] [PyVal.str "c".data])]

/-- The export wall-clock instant used in the round-trip evaluation. -/
def c1Now : PyDateTime := ⟨2025, 6, 1, 12, 30⟩

/-- C1 (failing behaviour, evaluated): re-importing the export of a
supported Container Model does not reproduce it: for a model with one
primary unit with history [h] and comment [c], the round trip returns
history [c] and comment [h, provenance-line], because read_fits swaps
the history and comment components of parse_fits_header and because
create_fits appends the provenance HISTORY line. -/
theorem roundtrip_swaps_history_comment :
    read_fits (create_fits c1Container c1Now) =
      .ok [("PRIMARY".data, .primary []
        [PyVal.str "c".data]
        [PyVal.str "h".data,
         PyVal.str "File written by fits2hdf 2025-30-01T12:30".data])] ∧
    (read_fits (create_fits c1Container c1Now)).toOption ≠ some c1Container := by
  exact ⟨by rfl, by decide⟩

/-- A Container Model with a single empty primary unit, used to observe
the provenance stamping of create_fits. -/
def c9Container : IdiHdulist := [("PRIMARY".data, .primary [] [] [])]

/-- The export wall-clock instant 2026-10-12 09:37. -/
def c9Now : PyDateTime := ⟨2026, 10, 12, 9, 37⟩

/-- C9 (failing behaviour, evaluated): create_fits appends exactly one
provenance HISTORY line to the first unit, but the timestamp is NOT
year-month-day: for the instant 2026-10-12 09:37 the strftime format of
the source produces 2026-37-12T09:37, repeating the minutes where the
month should be, and not 2026-10-12T09:37. -/
theorem provenance_timestamp_bug :
    strftimeYMdHM c9Now = "2026-37-12T09:37".data ∧
    strftimeYMdHM c9Now ≠ "2026-10-12T09:37".data ∧
    create_fits c9Container c9Now =
      [{ name := "PRIMARY".data, kind := .primaryHDU,
         hdr := pfPrimaryInitCards ++
           [⟨"HISTORY".data,
             PyVal.str "File written by fits2hdf 2026-37-12T09:37".data,
             PyVal.str []⟩],
         size := 0, is_image := true, data := .error .typeError,
         table := [] }] := by
  refine ⟨by decide, by decide, by rfl⟩

/-- C7: during import of an image-declared unit (ImageHDU, PrimaryHDU
or GroupsHDU class), a TypeError raised by the data accessor while
building the Image or random-groups Table unit is caught and the unit
is reinterpreted as a Primary unit carrying exactly the header, history
and comment values that the explicit empty-unit path produces, instead
of surfacing the error; an exception of any other type is not caught
and aborts the read. -/
theorem image_typeerror_reinterpreted_as_primary (hdu : FitsHDU)
    (hk : hdu.kind = .imageHDU ∨ hdu.kind = .primaryHDU ∨ hdu.kind = .groupsHDU) :
    (hdu.data = .error .typeError →
      read_fits_hdu hdu =
        .ok (.primary (parse_fits_header hdu.hdr).1
          (parse_fits_header hdu.hdr).2.1 (parse_fits_header hdu.hdr).2.2) ∧
      read_fits_hdu hdu = read_fits_hdu { hdu with size := 0 }) ∧
    (∀ m, hdu.data = .error (.otherError m) → hdu.size ≠ 0 →
      read_fits_hdu hdu = .error (.otherError m)) := by
  constructor
  · intro hd
    constructor
    · rcases hk with hk | hk | hk <;>
        · simp only [read_fits_hdu, hk]
          by_cases hs : hdu.size = 0 <;> by_cases hi : hdu.is_image <;>
            simp [hs, hi, hd]
    · rcases hk with hk | hk | hk <;>
        · simp only [read_fits_hdu, hk]
          by_cases hs : hdu.size = 0 <;> by_cases hi : hdu.is_image <;>
            simp [hs, hi, hd]
  · intro m hd hs
    rcases hk with hk | hk | hk <;>
      · simp only [read_fits_hdu, hk]
        by_cases hi : hdu.is_image <;> simp [hs, hi, hd]

/-- An image-declared unit with nonzero size whose data accessor raises
TypeError. -/
def c7HduT : FitsHDU :=
  { name := "IMG".data, kind := .imageHDU, hdr := [], size := 4,
    is_image := true, data := .error .typeError, table := [] }

/-- An image-declared unit with nonzero size whose data accessor raises
an exception that is not a TypeError. -/
def c7HduO : FitsHDU :=
  { name := "IMG".data, kind := .imageHDU, hdr := [], size := 4,
    is_image := true, data := .error (.otherError "corrupt".data), table := [] }

/-- Witness for image_typeerror_reinterpreted_as_primary: the TypeError
unit becomes a Primary unit, the other exception aborts the read. -/
theorem image_typeerror_witness :
    read_fits_hdu c7HduT = .ok (.primary [] [] []) ∧
    read_fits_hdu c7HduO = .error (.otherError "corrupt".data) :=
  ⟨((image_typeerror_reinterpreted_as_primary c7HduT (Or.inl rfl)).1 rfl).1,
   (image_typeerror_reinterpreted_as_primary c7HduO (Or.inl rfl)).2
     "corrupt".data rfl (by decide)⟩

/-- The sequence of output unit names read_fits assigns, as a function
of the input name sequence and the running blank-name counter. -/
def renamedNames : List PyStr → Nat → List PyStr
  | [], _ => []
  | n :: rest, ii =>
    if blankName n then ("HDU".data ++ (toString ii).data) :: renamedNames rest (ii + 1)
    else n :: renamedNames rest ii

/-- On a successful read, the output names are the input names with each
blank name replaced by HDU followed by the running counter. -/
theorem read_fits_go_names (ff : List FitsHDU) : ∀ (ii : Nat) (acc out : IdiHdulist),
    read_fits_go ff ii acc = .ok out →
    out.map Prod.fst = acc.map Prod.fst ++ renamedNames (ff.map (fun u => u.name)) ii := by
  induction ff with
  | nil =>
    intro ii acc out h
    simp only [read_fits_go] at h
    cases h
    simp [renamedNames]
  | cons hdu rest ih =>
    intro ii acc out h
    simp only [read_fits_go] at h
    by_cases hb : blankName hdu.name
    · rw [if_pos hb] at h
      cases hr : read_fits_hdu { hdu with name := "HDU".data ++ (toString ii).data } with
      | error e => rw [hr] at h; cases h
      | ok u =>
        rw [hr] at h
        have := ih (ii + 1) (acc ++ [("HDU".data ++ (toString ii).data, u)]) out h
        simp only [List.map_append, List.map_cons, List.map_nil] at this
        simp [this, renamedNames, hb]
    · rw [if_neg hb] at h
      cases hr : read_fits_hdu { hdu with name := hdu.name } with
      | error e => rw [hr] at h; cases h
      | ok u =>
        rw [hr] at h
        have := ih ii (acc ++ [(hdu.name, u)]) out h
        simp only [List.map_append, List.map_cons, List.map_nil] at this
        simp [this, renamedNames, hb]

/-- Position-wise description of renamedNames: a blank name at position
i becomes HDU followed by the counter start plus the number of blank
names strictly before position i. -/
theorem renamedNames_get? : ∀ (ns : List PyStr) (ii i : Nat) (nm : PyStr),
    ns[i]? = some nm → blankName nm →
    (renamedNames ns ii)[i]? =
      some ("HDU".data ++
        (toString (ii + ((ns.take i).filter blankName).length)).data) := by
  intro ns
  induction ns with
  | nil => intro ii i nm h; simp at h
  | cons n rest ih =>
    intro ii i nm h hb
    cases i with
    | zero =>
      simp only [List.getElem?_cons_zero, Option.some.injEq] at h
      subst h
      simp [renamedNames, hb]
    | succ i =>
      simp only [List.getElem?_cons_succ] at h
      by_cases hn : blankName n
      · simp only [renamedNames, if_pos hn, List.getElem?_cons_succ]
        rw [ih (ii + 1) i nm h hb]
        have harith : ii + 1 + ((rest.take i).filter blankName).length =
            ii + (((n :: rest).take (i + 1)).filter blankName).length := by
          simp [List.take_succ_cons, List.filter_cons, hn]
          omega
        rw [harith]
      · simp only [renamedNames, if_neg hn, List.getElem?_cons_succ]
        rw [ih ii i nm h hb]
        have harith : ii + ((rest.take i).filter blankName).length =
            ii + (((n :: rest).take (i + 1)).filter blankName).length := by
          simp [List.take_succ_cons, List.filter_cons, hn]
        rw [harith]

/-- C8: a unit whose name is blank is renamed HDU followed by a
zero-indexed counter that advances once per blank-named unit: on a
successful import, the unit at position i, when blank-named, receives
the name HDU followed by the number of blank-named units among the
first i units, independently of how many named units surround it. -/
theorem blank_unit_naming (ff : List FitsHDU) (out : IdiHdulist)
    (h : read_fits ff = .ok out) (i : Nat) (nm : PyStr)
    (hnm : (ff.map (fun u => u.name))[i]? = some nm) (hb : blankName nm) :
    (out.map Prod.fst)[i]? =
      some ("HDU".data ++
        (toString ((((ff.map (fun u => u.name)).take i).filter blankName).length)).data) := by
  have hnames := read_fits_go_names ff 0 [] out h
  simp only [List.map_nil, List.nil_append] at hnames
  rw [hnames, renamedNames_get? _ 0 i nm hnm hb, Nat.zero_add]

/-- A minimal importable unit with the given name. -/
def c8Hdu (nm : String) : FitsHDU :=
  { name := nm.data, kind := .primaryHDU, hdr := [], size := 0,
    is_image := true, data := .error .typeError, table := [] }

/-- Five units, with the second, fourth and fifth blank-named. -/
def c8Hdus : List FitsHDU :=
  [c8Hdu "A", c8Hdu "", c8Hdu "B", c8Hdu " ", c8Hdu ""]

/-- The Container Model produced from c8Hdus. -/
def c8Out : IdiHdulist :=
  [("A".data, .primary [] [] []), ("HDU0".data, .primary [] [] []),
   ("B".data, .primary [] [] []), ("HDU1".data, .primary [] [] []),
   ("HDU2".data, .primary [] [] [])]

/-- Witness for blank_unit_naming: the third blank-named unit of the
document, sitting at position 4 behind two named units, is named HDU2. -/
theorem blank_unit_naming_witness :
    (c8Out.map Prod.fst)[4]? = some "HDU2".data :=
  blank_unit_naming c8Hdus c8Out (by rfl) 4 [] (by rfl) (by decide)

/-- An entries key that write_headers copies onto the target header: it
does not end with the comment suffix, is not a table-derived key (by
5-character prefix, TDIM prefix or the exact name TFIELDS) and is not a
basic restricted keyword. -/
def writableKey (k : PyStr) : Prop :=
  ¬ ("_COMMENT".data.isSuffixOf k = true) ∧
  k.take 5 ∉ restricted_table_keywords ∧
  k.take 4 ≠ "TDIM".data ∧ k ≠ "TFIELDS".data ∧
  k ∉ restricted_header_keywords

instance writableKeyDec : DecidablePred writableKey := fun k => by
  unfold writableKey
  infer_instance

/-- The card comment write_headers attaches to a key: the entries value
of the KEY_COMMENT companion, defaulting to the empty string. -/
def commentOf (full : PyDict) (k : PyStr) : PyVal :=
  (dictGet? full (k ++ "_COMMENT".data)).getD (PyVal.str [])

/-- The HISTORY card add_history appends for a value. -/
def mkHistCard (v : PyVal) : Card := ⟨"HISTORY".data, v, PyVal.str []⟩

/-- The COMMENT card add_comment appends for a value. -/
def mkCommCard (v : PyVal) : Card := ⟨"COMMENT".data, v, PyVal.str []⟩

theorem writeHeadersStep_writable (full : PyDict) (h : List Card)
    (kv : PyStr × PyVal) (hw : writableKey kv.1) :
    writeHeadersStep full h kv = headerSet h kv.1 kv.2 (commentOf full kv.1) := by
  obtain ⟨h1, h2, h3, h4, h5⟩ := hw
  simp only [writeHeadersStep, commentOf]
  rw [if_neg]
  · cases hg : dictGet? full (kv.1 ++ "_COMMENT".data) <;> simp [hg, Option.getD]
  · rintro (hc | (ht | ht | ht) | hb)
    · exact h1 hc
    · exact h2 ht
    · exact h3 ht
    · exact h4 ht
    · exact h5 hb

theorem writeHeadersStep_skip (full : PyDict) (h : List Card)
    (kv : PyStr × PyVal) (hw : ¬ writableKey kv.1) :
    writeHeadersStep full h kv = h := by
  simp only [writeHeadersStep]
  rw [if_pos]
  unfold writableKey at hw
  by_cases h1 : "_COMMENT".data.isSuffixOf kv.1 = true
  · exact Or.inl h1
  by_cases h2 : kv.1.take 5 ∈ restricted_table_keywords
  · exact Or.inr (Or.inl (Or.inl h2))
  by_cases h3 : kv.1.take 4 = "TDIM".data
  · exact Or.inr (Or.inl (Or.inr (Or.inl h3)))
  by_cases h4 : kv.1 = "TFIELDS".data
  · exact Or.inr (Or.inl (Or.inr (Or.inr h4)))
  by_cases h5 : kv.1 ∈ restricted_header_keywords
  · exact Or.inr (Or.inr h5)
  exact absurd ⟨h1, h2, h3, h4, h5⟩ hw

theorem mem_headerSet_self (h : List Card) (k : PyStr) (v c : PyVal) :
    (⟨k, v, c⟩ : Card) ∈ headerSet h k v c := by
  induction h with
  | nil => simp [headerSet]
  | cons card hdr ih =>
    by_cases he : card.id = k <;> simp [headerSet, he, ih]

theorem mem_headerSet_of_ne (h : List Card) (k : PyStr) (v c : PyVal)
    (x : Card) (hx : x ∈ h) (hne : x.id ≠ k) : x ∈ headerSet h k v c := by
  induction h with
  | nil => cases hx
  | cons card hdr ih =>
    by_cases he : card.id = k
    · rcases List.mem_cons.1 hx with rfl | hx
      · exact absurd he hne
      · simp [headerSet, he, hx]
    · rcases List.mem_cons.1 hx with rfl | hx
      · simp [headerSet, he]
      · simp [headerSet, he, ih hx]

theorem mem_headerSet_elim (h : List Card) (k : PyStr) (v c : PyVal)
    (x : Card) (hx : x ∈ headerSet h k v c) : x ∈ h ∨ x = ⟨k, v, c⟩ := by
  induction h with
  | nil =>
    simp [headerSet] at hx
    exact Or.inr hx
  | cons card hdr ih =>
    by_cases he : card.id = k
    · simp only [headerSet, if_pos he] at hx
      rcases List.mem_cons.1 hx with rfl | hx
      · exact Or.inr rfl
      · exact Or.inl (List.mem_cons_of_mem _ hx)
    · simp only [headerSet, if_neg he] at hx
      rcases List.mem_cons.1 hx with rfl | hx
      · exact Or.inl (List.mem_cons_self _ _)
      · rcases ih hx with hx | hx
        · exact Or.inl (List.mem_cons_of_mem _ hx)
        · exact Or.inr hx

theorem whFold_mem_preserved (full : PyDict) :
    ∀ (entries : List (PyStr × PyVal)) (h : List Card) (x : Card),
      x ∈ h → (∀ kv ∈ entries, kv.1 ≠ x.id) →
      x ∈ entries.foldl (writeHeadersStep full) h := by
  intro entries
  induction entries with
  | nil => intro h x hx _; exact hx
  | cons e rest ih =>
    intro h x hx hne
    simp only [List.foldl_cons]
    by_cases hw : writableKey e.1
    · rw [writeHeadersStep_writable full h e hw]
      exact ih _ x
        (mem_headerSet_of_ne h e.1 e.2 (commentOf full e.1) x hx
          (fun hh => hne e (List.mem_cons_self _ _) hh.symm))
        (fun kv hkv => hne kv (List.mem_cons_of_mem _ hkv))
    · rw [writeHeadersStep_skip full h e hw]
      exact ih _ x hx (fun kv hkv => hne kv (List.mem_cons_of_mem _ hkv))

theorem whFold_mem_written (full : PyDict) :
    ∀ (entries : List (PyStr × PyVal)) (h : List Card),
      (entries.map Prod.fst).Nodup →
      ∀ kv ∈ entries, writableKey kv.1 →
        (⟨kv.1, kv.2, commentOf full kv.1⟩ : Card) ∈
          entries.foldl (writeHeadersStep full) h := by
  intro entries
  induction entries with
  | nil => intro h _ kv hkv; cases hkv
  | cons e rest ih =>
    intro h hnd kv hkv hw
    simp only [List.map_cons, List.nodup_cons] at hnd
    simp only [List.foldl_cons]
    rcases List.mem_cons.1 hkv with rfl | hkv
    · rw [writeHeadersStep_writable full h kv hw]
      exact whFold_mem_preserved full rest _ _
        (mem_headerSet_self h kv.1 kv.2 (commentOf full kv.1))
        (fun kv' hkv' hh => by
          apply hnd.1
          have he : kv'.1 = kv.1 := hh
          rw [← he]
          exact List.mem_map_of_mem Prod.fst hkv')
    · by_cases hwe : writableKey e.1
      · rw [writeHeadersStep_writable full h e hwe]
        exact ih _ hnd.2 kv hkv hw
      · rw [writeHeadersStep_skip full h e hwe]
        exact ih _ hnd.2 kv hkv hw

theorem whFold_mem_elim (full : PyDict) :
    ∀ (entries : List (PyStr × PyVal)) (h : List Card) (x : Card),
      x ∈ entries.foldl (writeHeadersStep full) h →
      x ∈ h ∨ ∃ kv ∈ entries, writableKey kv.1 ∧
        x = ⟨kv.1, kv.2, commentOf full kv.1⟩ := by
  intro entries
  induction entries with
  | nil => intro h x hx; exact Or.inl hx
  | cons e rest ih =>
    intro h x hx
    simp only [List.foldl_cons] at hx
    by_cases hw : writableKey e.1
    · rw [writeHeadersStep_writable full h e hw] at hx
      rcases ih _ x hx with hx | ⟨kv, hkv, hwk, rfl⟩
      · rcases mem_headerSet_elim h e.1 e.2 (commentOf full e.1) x hx with hx | rfl
        · exact Or.inl hx
        · exact Or.inr ⟨e, List.mem_cons_self _ _, hw, rfl⟩
      · exact Or.inr ⟨kv, List.mem_cons_of_mem _ hkv, hwk, rfl⟩
    · rw [writeHeadersStep_skip full h e hw] at hx
      rcases ih _ x hx with hx | ⟨kv, hkv, hwk, rfl⟩
      · exact Or.inl hx
      · exact Or.inr ⟨kv, List.mem_cons_of_mem _ hkv, hwk, rfl⟩

theorem foldl_add_history (l : List PyVal) :
    ∀ h : List Card, l.foldl add_history h = h ++ l.map mkHistCard := by
  induction l with
  | nil => intro h; simp
  | cons v rest ih =>
    intro h
    simp only [List.foldl_cons, List.map_cons, ih, add_history]
    simp [mkHistCard]

theorem foldl_add_comment (l : List PyVal) :
    ∀ h : List Card, l.foldl add_comment h = h ++ l.map mkCommCard := by
  induction l with
  | nil => intro h; simp
  | cons v rest ih =>
    intro h
    simp only [List.foldl_cons, List.map_cons, ih, add_comment]
    simp [mkCommCard]

/-- C6: write_headers copies, for every entries key that does not end
with the comment suffix and is not reserved (structural set,
5-character table-derived prefix, TDIM prefix, or exact TFIELDS), a card
with that key, its value and the comment looked up from the KEY_COMMENT
companion entry (defaulting to empty); every card it adds to the target
comes from such a key, so reserved keys and comment companions are
never written; and afterwards all history lines and then all comment
lines are appended in order. -/
theorem write_headers_spec (hdr0 : List Card) (header : PyDict)
    (history comment : List PyVal) (hnd : (header.map Prod.fst).Nodup) :
    ∃ h1 : List Card,
      write_headers hdr0 header history comment =
        h1 ++ history.map mkHistCard ++ comment.map mkCommCard ∧
      (∀ kv ∈ header, writableKey kv.1 →
        (⟨kv.1, kv.2, commentOf header kv.1⟩ : Card) ∈ h1) ∧
      (∀ x ∈ h1, x ∈ hdr0 ∨ ∃ kv ∈ header, writableKey kv.1 ∧
        x = ⟨kv.1, kv.2, commentOf header kv.1⟩) := by
  refine ⟨header.foldl (writeHeadersStep header) hdr0, ?_, ?_, ?_⟩
  · simp only [write_headers, foldl_add_history, foldl_add_comment, List.append_assoc]
  · intro kv hkv hw
    exact whFold_mem_written header header hdr0 hnd kv hkv hw
  · intro x hx
    exact whFold_mem_elim header header hdr0 x hx

/-- A header-entries dict exercising write_headers: one user key with a
comment companion, a table key, a TDIM key, and a structural key. -/
def c6Header : PyDict :=
  [("FOO".data, .int 1), ("FOO_COMMENT".data, .str "f".data),
   ("TTYPE1".data, .int 2), ("TDIM1".data, .int 3), ("SIMPLE".data, .int 4)]

/-- Witness for write_headers_spec at a concrete header, history and
comment. -/
theorem write_headers_spec_witness :
    ∃ h1 : List Card,
      write_headers [] c6Header [PyVal.str "hh".data] [PyVal.str "cc".data] =
        h1 ++ [PyVal.str "hh".data].map mkHistCard
           ++ [PyVal.str "cc".data].map mkCommCard ∧
      (∀ kv ∈ c6Header, writableKey kv.1 →
        (⟨kv.1, kv.2, commentOf c6Header kv.1⟩ : Card) ∈ h1) ∧
      (∀ x ∈ h1, x ∈ ([] : List Card) ∨ ∃ kv ∈ c6Header, writableKey kv.1 ∧
        x = ⟨kv.1, kv.2, commentOf c6Header kv.1⟩) :=
  write_headers_spec [] c6Header [PyVal.str "hh".data] [PyVal.str "cc".data]
    (by decide)

/-- A card that parse_fits_header stores into the entries dict: the
stripped name is not blank, not a restricted structural keyword, does
not carry a restricted table prefix in its first five characters, and
is neither HISTORY nor COMMENT. -/
def storedCard (c : Card) : Prop :=
  ¬ (pyStrip c.id = [] ∨ pyStrip c.id = [' ']) ∧
  pyStrip c.id ∉ restricted_header_keywords ∧
  (pyStrip c.id).take 5 ∉ restricted_table_keywords ∧
  pyStrip c.id ≠ "HISTORY".data ∧
  pyStrip c.id ≠ "COMMENT".data

instance storedCardDec : DecidablePred storedCard := fun c => by
  unfold storedCard
  infer_instance

/-- The entries dict built by the parse loop, isolated from the comment
and history accumulators: each stored card inserts its value under its
stripped name and its comment under the name plus the comment suffix,
in card order, into the position-preserving dict. -/
def headerFold : List Card → PyDict → PyDict
  | [], d => d
  | c :: rest, d =>
    if storedCard c then
      headerFold rest (dictInsert (dictInsert d (pyStrip c.id) c.val)
        (pyStrip c.id ++ "_COMMENT".data) c.comment)
    else headerFold rest d

theorem parseGo_fst : ∀ (cards : List Card) (d : PyDict) (co hi : List PyVal),
    (parseGo cards d co hi).1 = headerFold cards d := by
  intro cards
  induction cards with
  | nil => intro d co hi; rfl
  | cons c rest ih =>
    intro d co hi
    simp only [parseGo, headerFold]
    by_cases h1 : pyStrip c.id = [] ∨ pyStrip c.id = [' ']
    · have hns : ¬ storedCard c := fun hs => hs.1 h1
      rw [if_pos h1, if_neg hns]
      exact ih d co hi
    · rw [if_neg h1]
      by_cases h2 : pyStrip c.id ∈ restricted_header_keywords
      · have hns : ¬ storedCard c := fun hs => hs.2.1 h2
        rw [if_pos h2, if_neg hns]
        exact ih d co hi
      · rw [if_neg h2]
        by_cases h3 : (pyStrip c.id).take 5 ∈ restricted_table_keywords
        · have hns : ¬ storedCard c := fun hs => hs.2.2.1 h3
          rw [if_pos h3, if_neg hns]
          exact ih d co hi
        · rw [if_neg h3]
          by_cases h4 : pyStrip c.id = "HISTORY".data
          · have hns : ¬ storedCard c := fun hs => hs.2.2.2.1 h4
            rw [if_pos h4, if_neg hns]
            exact ih d co (hi ++ [c.val])
          · rw [if_neg h4]
            by_cases h5 : pyStrip c.id = "COMMENT".data
            · have hns : ¬ storedCard c := fun hs => hs.2.2.2.2 h5
              rw [if_pos h5, if_neg hns]
              exact ih d (co ++ [c.val]) hi
            · have hss : storedCard c := ⟨h1, h2, h3, h4, h5⟩
              rw [if_neg h5, if_pos hss]
              exact ih _ co hi

theorem dictGet?_insert : ∀ (d : PyDict) (k : PyStr) (v : PyVal) (k' : PyStr),
    dictGet? (dictInsert d k v) k' = if k' = k then some v else dictGet? d k' := by
  intro d
  induction d with
  | nil =>
    intro k v k'
    by_cases h : k' = k
    · simp [dictInsert, dictGet?, h]
    · have h2 : ¬ k = k' := fun hh => h hh.symm
      simp [dictInsert, dictGet?, h, h2]
  | cons p d ih =>
    intro k v k'
    by_cases hp : p.1 = k
    · simp only [dictInsert, if_pos hp]
      by_cases h : k' = k
      · simp [dictGet?, h]
      · have h2 : ¬ k = k' := fun hh => h hh.symm
        have h3 : ¬ p.1 = k' := fun hh => h2 (hp.symm.trans hh)
        simp [dictGet?, h, h2, h3]
    · simp only [dictInsert, if_neg hp]
      by_cases h : p.1 = k'
      · have hkk : ¬ k' = k := fun he => hp (h.trans he)
        simp [dictGet?, h, hkk]
      · simp [dictGet?, h, ih k v k']

theorem find?_congr_mem {α : Type} (l : List α) (p q : α → Bool)
    (h : ∀ x ∈ l, p x = q x) : l.find? p = l.find? q := by
  induction l with
  | nil => rfl
  | cons a l ih =>
    have ha := h a (List.mem_cons_self a l)
    by_cases hp : p a = true
    · rw [List.find?_cons_of_pos l hp, List.find?_cons_of_pos l (ha ▸ hp)]
    · have hq : ¬ q a = true := fun hh => hp (ha.symm ▸ hh)
      rw [List.find?_cons_of_neg l hp, List.find?_cons_of_neg l hq]
      exact ih (fun x hx => h x (List.mem_cons_of_mem a hx))

/-- A card writes the entries key k when it is stored and k is either
its stripped name or its stripped name plus the comment suffix. -/
def writes (c : Card) (k : PyStr) : Prop :=
  storedCard c ∧ (pyStrip c.id = k ∨ pyStrip c.id ++ "_COMMENT".data = k)

instance writesDec : ∀ (c : Card) (k : PyStr), Decidable (writes c k) :=
  fun c k => by
    unfold writes
    infer_instance

/-- The value the last card writing the entries key k leaves there: the
card value when k is its name, its comment when k is the comment
companion key. -/
def lastWrite? (cards : List Card) (k : PyStr) : Option PyVal :=
  (cards.reverse.find? (fun c => decide (writes c k))).map
    (fun c => if pyStrip c.id = k then c.val else c.comment)

theorem ne_append_comment (s : PyStr) : s ≠ s ++ "_COMMENT".data := by
  intro h
  have hl := congrArg List.length h
  simp at hl

theorem headerFold_get : ∀ (cards : List Card) (d : PyDict) (k : PyStr),
    dictGet? (headerFold cards d) k = (lastWrite? cards k).or (dictGet? d k) := by
  intro cards
  induction cards with
  | nil => intro d k; simp [headerFold, lastWrite?]
  | cons c rest ih =>
    intro d k
    have hrev : (c :: rest).reverse = rest.reverse ++ [c] := by simp
    by_cases hs : storedCard c
    · simp only [headerFold, if_pos hs]
      rw [ih]
      simp only [lastWrite?, hrev, List.find?_append]
      cases hfr : rest.reverse.find? (fun x => decide (writes x k)) with
      | some c' => simp
      | none =>
        simp only [Option.map_none', Option.none_or]
        rw [dictGet?_insert, dictGet?_insert]
        by_cases hck : k = pyStrip c.id ++ "_COMMENT".data
        · subst hck
          have hnid : pyStrip c.id ≠ pyStrip c.id ++ "_COMMENT".data :=
            ne_append_comment (pyStrip c.id)
          have hw : decide (writes c (pyStrip c.id ++ "_COMMENT".data)) = true :=
            decide_eq_true ⟨hs, Or.inr rfl⟩
          simp [List.find?, hw, hnid]
        · by_cases hid : k = pyStrip c.id
          · subst hid
            have hw : decide (writes c (pyStrip c.id)) = true :=
              decide_eq_true ⟨hs, Or.inl rfl⟩
            simp [List.find?, hw, hck]
          · have hw2 : decide (writes c k) = false := by
              apply decide_eq_false
              rintro ⟨_, he | he⟩
              · exact hid he.symm
              · exact hck he.symm
            simp [List.find?, hw2, hck, hid]
    · simp only [headerFold, if_neg hs]
      rw [ih]
      simp only [lastWrite?, hrev, List.find?_append]
      have hw : decide (writes c k) = false :=
        decide_eq_false (fun hh => hs hh.1)
      cases hfr : rest.reverse.find? (fun x => decide (writes x k)) with
      | some c' => simp
      | none => simp [List.find?, hw]

theorem lastWrite?_writer (cards : List Card) (k : PyStr) (v : PyVal)
    (h : lastWrite? cards k = some v) : ∃ c ∈ cards, writes c k := by
  unfold lastWrite? at h
  cases hf : cards.reverse.find? (fun c => decide (writes c k)) with
  | none => rw [hf] at h; cases h
  | some c =>
    refine ⟨c, List.mem_reverse.1 (List.mem_of_find?_eq_some hf), ?_⟩
    have hp := List.find?_some hf
    exact of_decide_eq_true hp

theorem structural_no_comment_suffix :
    ∀ k ∈ restricted_header_keywords, ¬ ("_COMMENT".data <:+ k) := by decide

theorem table_keywords_no_underscore :
    ∀ x ∈ restricted_table_keywords, '_' ∉ x := by decide

theorem comment_key_take5_not_table (s : PyStr)
    (hid : s.take 5 ∉ restricted_table_keywords) :
    (s ++ "_COMMENT".data).take 5 ∉ restricted_table_keywords := by
  intro hmem
  rw [List.take_append_eq_append_take] at hmem
  by_cases hlen : 5 ≤ s.length
  · have h0 : 5 - s.length = 0 := by omega
    rw [h0] at hmem
    simp at hmem
    exact hid hmem
  · have hidtake : s.take 5 = s := List.take_of_length_le (by omega)
    rw [hidtake] at hmem
    have hu : '_' ∈ s ++ ("_COMMENT".data.take (5 - s.length)) := by
      apply List.mem_append_right
      have hsfx : "_COMMENT".data = '_' :: "COMMENT".data := rfl
      cases hq : 5 - s.length with
      | zero => omega
      | succ m =>
        rw [hsfx, List.take_succ_cons]
        exact List.mem_cons_self _ _
    exact (table_keywords_no_underscore _ hmem) hu

/-- Structural restricted keys never appear in the entries dict
produced by parse_fits_header. -/
theorem parse_fst_structural_none (cards : List Card) (k : PyStr)
    (hk : k ∈ restricted_header_keywords) :
    dictGet? (parse_fits_header cards).1 k = none := by
  rw [show (parse_fits_header cards).1 = headerFold cards [] from
    parseGo_fst cards [] [] [], headerFold_get]
  cases hlw : lastWrite? cards k with
  | none => simp [dictGet?]
  | some v =>
    exfalso
    obtain ⟨c, hcmem, hw⟩ := lastWrite?_writer cards k v hlw
    rcases hw.2 with he | he
    · exact hw.1.2.1 (by rw [he]; exact hk)
    · exact structural_no_comment_suffix k hk ⟨pyStrip c.id, he⟩

/-- Keys whose first five characters match a restricted table prefix
never appear in the entries dict produced by parse_fits_header. -/
theorem parse_fst_table_none (cards : List Card) (k : PyStr)
    (hk : k.take 5 ∈ restricted_table_keywords) :
    dictGet? (parse_fits_header cards).1 k = none := by
  rw [show (parse_fits_header cards).1 = headerFold cards [] from
    parseGo_fst cards [] [] [], headerFold_get]
  cases hlw : lastWrite? cards k with
  | none => simp [dictGet?]
  | some v =>
    exfalso
    obtain ⟨c, hcmem, hw⟩ := lastWrite?_writer cards k v hlw
    rcases hw.2 with he | he
    · exact hw.1.2.2.1 (by rw [he]; exact hk)
    · exact comment_key_take5_not_table (pyStrip c.id) hw.1.2.2.1
        (by rw [he]; exact hk)

/-- The last card parse_fits_header stores under the key k. -/
def lastStored (cards : List Card) (k : PyStr) : Option Card :=
  cards.reverse.find? (fun c => decide (storedCard c ∧ pyStrip c.id = k))

/-- Every stored card survives into the entries dict: the key holds the
value of the last stored card with that name, and the companion
comment key holds the comment of that card. -/
theorem parse_fst_stored (cards : List Card)
    (hc : ∀ c ∈ cards, ¬ ("_COMMENT".data <:+ pyStrip c.id))
    (c : Card) (hmem : c ∈ cards) (hs : storedCard c) :
    ∃ cl, lastStored cards (pyStrip c.id) = some cl ∧ storedCard cl ∧
      pyStrip cl.id = pyStrip c.id ∧
      dictGet? (parse_fits_header cards).1 (pyStrip c.id) = some cl.val ∧
      dictGet? (parse_fits_header cards).1 (pyStrip c.id ++ "_COMMENT".data)
        = some cl.comment := by
  have hfind : (cards.reverse.find?
      (fun x => decide (storedCard x ∧ pyStrip x.id = pyStrip c.id))).isSome := by
    rw [List.find?_isSome]
    exact ⟨c, List.mem_reverse.2 hmem, decide_eq_true ⟨hs, rfl⟩⟩
  obtain ⟨cl, hcl⟩ := Option.isSome_iff_exists.1 hfind
  have hclp : storedCard cl ∧ pyStrip cl.id = pyStrip c.id := by
    have hp := List.find?_some hcl
    exact of_decide_eq_true hp
  have hck : ∀ x ∈ cards.reverse,
      (decide (writes x (pyStrip c.id)) : Bool) =
        decide (storedCard x ∧ pyStrip x.id = pyStrip c.id) := by
    intro x hx
    refine decide_eq_decide.2 ?_
    constructor
    · rintro ⟨hsx, he | he⟩
      · exact ⟨hsx, he⟩
      · exact absurd ⟨pyStrip x.id, he⟩ (hc c hmem)
    · rintro ⟨hsx, he⟩
      exact ⟨hsx, Or.inl he⟩
  have hval : dictGet? (parse_fits_header cards).1 (pyStrip c.id) = some cl.val := by
    rw [show (parse_fits_header cards).1 = headerFold cards [] from
      parseGo_fst cards [] [] [], headerFold_get]
    unfold lastWrite?
    rw [find?_congr_mem _ _ _ hck, hcl]
    simp [hclp.2]
  have hckc : ∀ x ∈ cards.reverse,
      (decide (writes x (pyStrip c.id ++ "_COMMENT".data)) : Bool) =
        decide (storedCard x ∧ pyStrip x.id = pyStrip c.id) := by
    intro x hx
    have hncx := hc x (List.mem_reverse.1 hx)
    refine decide_eq_decide.2 ?_
    constructor
    · rintro ⟨hsx, he | he⟩
      · exact absurd (show "_COMMENT".data <:+ pyStrip x.id from
          he ▸ ⟨pyStrip c.id, rfl⟩) hncx
      · exact ⟨hsx, List.append_cancel_right he⟩
    · rintro ⟨hsx, he⟩
      exact ⟨hsx, Or.inr (by rw [he])⟩
  have hcom : dictGet? (parse_fits_header cards).1
      (pyStrip c.id ++ "_COMMENT".data) = some cl.comment := by
    rw [show (parse_fits_header cards).1 = headerFold cards [] from
      parseGo_fst cards [] [] [], headerFold_get]
    unfold lastWrite?
    rw [find?_congr_mem _ _ _ hckc, hcl]
    have hne : pyStrip cl.id ≠ pyStrip c.id ++ "_COMMENT".data := by
      rw [hclp.2]
      exact ne_append_comment (pyStrip c.id)
    simp [hne]
  exact ⟨cl, hcl, hclp.1, hclp.2, hval, hcom⟩

/-- C5 counterexample to the claim as stated: a card whose name starts
with TDIM is NOT dropped by parse_fits_header; it is stored as an
ordinary user key together with its comment companion. -/
theorem tdim_card_kept_by_parse :
    (parse_fits_header [⟨"TDIM1".data, .int 7, .str "shape".data⟩]).1 =
      [("TDIM1".data, PyVal.int 7),
       ("TDIM1_COMMENT".data, PyVal.str "shape".data)] ∧
    dictGet? (parse_fits_header [⟨"TDIM1".data, .int 7, .str "shape".data⟩]).1
      "TDIM1".data = some (PyVal.int 7) := by decide

/-- C5 (amended): parse_fits_header drops every card whose stripped
name is in the structural set or whose first five characters match a
table-derived prefix (the exact name TFIELDS is dropped as a member of
the structural set), while cards whose names merely begin with TDIM are
kept; every kept user card populates the entries dict with its value
and its paired comment under the KEY_COMMENT companion key, a later
duplicate key overwriting an earlier one, and the dict is built by
inserting the kept pairs in card order into the position-preserving
map. -/
theorem parse_header_reserved_filtering (cards : List Card)
    (hc : ∀ c ∈ cards, ¬ ("_COMMENT".data <:+ pyStrip c.id)) :
    (∀ k ∈ restricted_header_keywords,
      dictGet? (parse_fits_header cards).1 k = none) ∧
    (∀ k : PyStr, k.take 5 ∈ restricted_table_keywords →
      dictGet? (parse_fits_header cards).1 k = none) ∧
    (∀ c ∈ cards, storedCard c →
      ∃ cl, lastStored cards (pyStrip c.id) = some cl ∧ storedCard cl ∧
        pyStrip cl.id = pyStrip c.id ∧
        dictGet? (parse_fits_header cards).1 (pyStrip c.id) = some cl.val ∧
        dictGet? (parse_fits_header cards).1 (pyStrip c.id ++ "_COMMENT".data)
          = some cl.comment) ∧
    (parse_fits_header cards).1 = headerFold cards [] :=
  ⟨fun k hk => parse_fst_structural_none cards k hk,
   fun k hk => parse_fst_table_none cards k hk,
   fun c hmem hs => parse_fst_stored cards hc c hmem hs,
   parseGo_fst cards [] [] []⟩

/-- A card list mixing structural, table-derived, TDIM and duplicated
user cards. -/
def c5Cards : List Card :=
  [⟨"SIMPLE".data, .bool true, .str []⟩,
   ⟨"TTYPE1".data, .str "col".data, .str []⟩,
   ⟨"FOO".data, .int 1, .str "f1".data⟩,
   ⟨"FOO".data, .int 2, .str "f2".data⟩,
   ⟨"TDIM2".data, .int 3, .str "td".data⟩,
   ⟨"HISTORY".data, .str "hh".data, .str []⟩]

/-- Witness for parse_header_reserved_filtering at a concrete card
list. -/
theorem parse_header_reserved_filtering_witness :
    (∀ k ∈ restricted_header_keywords,
      dictGet? (parse_fits_header c5Cards).1 k = none) ∧
    (∀ k : PyStr, k.take 5 ∈ restricted_table_keywords →
      dictGet? (parse_fits_header c5Cards).1 k = none) ∧
    (∀ c ∈ c5Cards, storedCard c →
      ∃ cl, lastStored c5Cards (pyStrip c.id) = some cl ∧ storedCard cl ∧
        pyStrip cl.id = pyStrip c.id ∧
        dictGet? (parse_fits_header c5Cards).1 (pyStrip c.id) = some cl.val ∧
        dictGet? (parse_fits_header c5Cards).1 (pyStrip c.id ++ "_COMMENT".data)
          = some cl.comment) ∧
    (parse_fits_header c5Cards).1 = headerFold c5Cards [] :=
  parse_header_reserved_filtering c5Cards (by decide)

end Fits2Hdf
